import Mathlib

/-!
# Verification of the SSGD out-of-core shuffle engine

Shallow embedding of `src/utils/shuffle.py` and the block-size arithmetic of
`src/mlml.py` (function `preprocess_arguments`), together with proofs of the
spec's claims about them.

Conventions of the embedding:
* a sample is an abstract value of type `α`; the Dataset File is a `List α`
  of its samples in order;
* `np.random.shuffle` is modelled by a call-indexed family
  `rng : Nat → List α → List α`; theorems about randomized behaviour take the
  hypothesis that every `rng i` permutes its argument, which is what
  `np.random.shuffle` does;
* Python's `while` loop in Phase 2 of `external_shuffle` is embedded with an
  explicit fuel parameter; theorems quantify over sufficient fuel, and the
  non-terminating degenerate case is exhibited by showing the loop state is a
  fixed point of the round step;
* Python's float division `num_per_block // (n / num_per_block)` is embedded
  exactly as the rational floor `⌊B² / n⌋`, i.e. `B * B / n` in `Nat`;
* the module `mlml.ssgd.blocks` (`BlockBuffer`, `BlockScope`, `BlockWriter`,
  `bytes_per_dtype`) is not part of the sources; its behaviour is modelled
  from the spec (§4.2–§4.4) where needed, as marked on each definition.
-/

namespace SSGD

variable {α : Type}

/-- Modelled from the spec: `BlockBuffer` (module `mlml.ssgd.blocks`, absent
from the sources) streams a file as a lazy sequence of blocks of a configured
size; per §4.2 the final block may be shorter when `n` is not evenly
divisible.  `chunksOf c l` is the list of consecutive chunks of `c` samples
of `l`, the last one possibly shorter.  A block size of `0` never occurs in
the engine (the Python code would divide by zero first); the definition
returns the whole list as one chunk in that degenerate case. -/
def chunksOf : Nat → List α → List (List α)
  | _, [] => []
  | 0, l => [l]
  | c + 1, x :: xs => ((x :: xs).take (c + 1)) :: chunksOf (c + 1) ((x :: xs).drop (c + 1))
termination_by _ l => l.length
decreasing_by simp [List.length_drop]; omega

/-- Phase 1 of `external_shuffle` (shuffle.py lines 83–87), as the list of
scratch-slot contents it produces: the loop `for i, block in enumerate(blocks)`
shuffles block `i` in place (`rng i`) and persists it as Scratch Slot `i`.
`i` is the running call index of the random generator. -/
def phase1 (rng : Nat → List α → List α) : Nat → List (List α) → List (List α)
  | _, [] => []
  | i, b :: bs => rng i b :: phase1 rng (i + 1) bs

/-- One round of the Phase-2 merge loop (shuffle.py lines 90–101), acting on
the list of active Sub-Buffer Cursors.  A cursor is represented by the list
of rows remaining in its scratch slot.  Per §4.4 (modelled from the spec,
`BlockScope.get_block_buffer` being absent from the sources) a cursor over a
non-exhausted slot yields its next `c` rows (possibly fewer at the end) and
survives; a cursor over an exhausted slot raises `StopIteration` and is
dropped from the collection.  Returns the chunks yielded this round, in
cursor order, and the surviving cursors. -/
def roundChunks (c : Nat) : List (List α) → List (List α) × List (List α)
  | [] => ([], [])
  | s :: rest =>
    let p := roundChunks c rest
    match s with
    | [] => p
    | _ :: _ => (s.take c :: p.1, s.drop c :: p.2)

/-- The Phase-2 merge loop `while buffers:` (shuffle.py lines 89–104), with
explicit fuel.  Each iteration pulls one chunk from every active cursor; if
at least one chunk was obtained (`current_block is not None`), their
concatenation is shuffled (`rng ctr`) and written, advancing the generator
call index; otherwise nothing is written.  Returns the blocks written, in
order. -/
def phase2 (c : Nat) (rng : Nat → List α → List α) : Nat → Nat → List (List α) → List (List α)
  | 0, _, _ => []
  | _ + 1, _, [] => []
  | fuel + 1, ctr, s :: rest =>
    let p := roundChunks c (s :: rest)
    match p.1 with
    | [] => phase2 c rng fuel ctr p.2
    | _ :: _ => rng ctr p.1.flatten :: phase2 c rng fuel (ctr + 1) p.2

/-- Observable outcome of one `external_shuffle` run: the constructor
arguments of the `BlockScope`, `BlockWriter` and `BlockBuffer` it creates
(shuffle.py lines 77–80), and the sequence of blocks it writes. -/
structure ShuffleRun (α : Type) where
  scopeDtype : String
  scopeTag : String
  scopeSize : Nat
  writerDtype : String
  writerBlockSize : Nat
  readerDtype : String
  readerBlockSize : Nat
  shapeRows : Nat
  shapeCols : Nat
  writes : List (List α)
  deriving Repr, DecidableEq

/-- The function `external_shuffle` of shuffle.py (lines 58–104).
`num_buffers = n / num_per_block` is Python float division, and the cursor
chunk size `num_per_block // num_buffers` is therefore the exact rational
floor `⌊num_per_block² / n⌋`.  Phase 2's `while` loop carries explicit
`fuel`. -/
def external_shuffle (fuel : Nat) (dtype : String) (n num_features num_per_block : Nat)
    (rng : Nat → List α → List α) (file : List α) : ShuffleRun α :=
  let chunk_size := num_per_block * num_per_block / n
  let blocks := chunksOf num_per_block file
  let slots := phase1 rng 0 blocks
  { scopeDtype := "float64"
    scopeTag := "samplesort"
    scopeSize := num_per_block
    writerDtype := dtype
    writerBlockSize := num_per_block
    readerDtype := dtype
    readerBlockSize := num_per_block
    shapeRows := num_per_block
    shapeCols := num_features + 1
    writes := phase2 chunk_size rng fuel blocks.length slots }

/-- The function `external_sort` of shuffle.py (lines 31–55): its body is
`pass`, so a run performs no reads and no writes. -/
structure SortRun (α : Type) where
  reads : List (List α)
  writes : List (List α)
  deriving Repr, DecidableEq

/-- The stub `external_sort` (shuffle.py line 55: `pass`). -/
def external_sort (dtype : String) (n num_features num_per_block : Nat) : SortRun α :=
  { reads := [], writes := [] }

/-- Result of `shuffle_train`: which algorithm variant ran, and its run. -/
inductive TrainRun (α : Type) where
  | sort (r : SortRun α)
  | shuffle (r : ShuffleRun α)
  deriving Repr, DecidableEq

/-- The tuple `ALGORITHMS` of shuffle.py line 13. -/
def ALGORITHMS : List String := ["external_sort", "external_shuffle"]

/-- The dispatcher `shuffle_train` (shuffle.py lines 16–28).  The `assert`
on line 24 is embedded as an `Except.error`, raised before anything else
happens.  The two calls keep the source's positional argument order
`(dtype, n, num_per_block, num_features, path)` — note the callee signatures
declare `(dtype, n, num_features, num_per_block, path)`. -/
def shuffle_train (fuel : Nat) (algorithm dtype : String) (n num_features num_per_block : Nat)
    (rng : Nat → List α → List α) (file : List α) : Except String (TrainRun α) :=
  if algorithm ∈ ALGORITHMS then
    if algorithm = "external_sort" then
      .ok (.sort (external_sort dtype n num_per_block num_features))
    else
      .ok (.shuffle (external_shuffle fuel dtype n num_per_block num_features rng file))
  else
    .error "Invalid shuffling algorithm provided."

/-- The `--num-per-block` arithmetic of `preprocess_arguments`
(mlml.py lines 126–130): `bytes_total = buffer * 10⁶` (the CLI buffer value
is a whole number of megabytes), `bytes_per_sample = (d + 1) * w` where `w`
is the byte width of the element type, and the block size is
`min(bytes_total // bytes_per_sample, n)`. -/
def preprocess_num_per_block (buffer d w n : Nat) : Nat :=
  min (buffer * 10 ^ 6 / ((d + 1) * w)) n

/-- Total number of samples held across a collection of cursors or slots. -/
def sumLen (st : List (List α)) : Nat := (st.map List.length).sum

/-- The update of the active-cursor collection performed by one iteration of
the Phase-2 merge loop: exhausted cursors are dropped, surviving cursors have
yielded their next `c` rows. -/
def mergeStep (c : Nat) (st : List (List α)) : List (List α) :=
  (roundChunks c st).2

/-- Modelled from the spec: outcome of a shuffle run wrapped in a
`BlockScope` (module `mlml.ssgd.blocks`, absent from the sources). §4.4: the
scope is a scoped resource whose scratch slots are all released on every exit
path; `liveSlots` is the list of scratch-slot indices still reachable after
the run, `result` the propagated outcome. -/
structure ScopeRun where
  result : Except String Unit
  liveSlots : List Nat
  deriving Repr

/-- Phase 1's slot acquisitions with fault injection: writing blocks
`0, …, k-1` to scratch acquires slots in order; a fault injected at step
`j < k` (e.g. a scratch write failure, §8 Scenario C) stops the run there,
leaving slots `0, …, j-1` acquired and an error to propagate.  Returns the
acquired slot indices and the error, if any. -/
def phase1Acquire (k : Nat) : Option Nat → List Nat × Option String
  | none => (List.range k, none)
  | some j => if j < k then (List.range j, some "DatasetWriteError") else (List.range k, none)

/-- Modelled from the spec: the `with BlockScope(...) as scope:` context
(shuffle.py line 77; `BlockScope` itself is absent from the sources). §4.4
and §7: on scope exit every acquired scratch slot is deleted — whether the
body succeeded or raised — and the body's failure, if any, still propagates
to the caller. -/
def withBlockScope (body : List Nat × Option String) : ScopeRun :=
  { result := match body.2 with
      | some e => .error e
      | none => .ok ()
    liveSlots := body.1.removeAll body.1 }

section Lemmas

/-- Concatenating the chunks of a list gives back the list (positive chunk
size). -/
theorem chunksOf_succ_flatten (c : Nat) : ∀ l : List α, (chunksOf (c + 1) l).flatten = l
  | [] => by simp [chunksOf]
  | x :: xs => by
    rw [chunksOf]
    rw [List.flatten_cons, chunksOf_succ_flatten c ((x :: xs).drop (c + 1))]
    exact List.take_append_drop _ _
termination_by l => l.length
decreasing_by simp [List.length_drop]; omega

/-- A list has at most as many chunks as elements (positive chunk size). -/
theorem chunksOf_succ_length_le (c : Nat) : ∀ l : List α, (chunksOf (c + 1) l).length ≤ l.length
  | [] => by simp [chunksOf]
  | x :: xs => by
    rw [chunksOf]
    have h := chunksOf_succ_length_le c ((x :: xs).drop (c + 1))
    simp only [List.length_cons, List.length_drop] at h ⊢
    omega
termination_by l => l.length
decreasing_by simp [List.length_drop]; omega

/-- Every chunk of a list is non-empty. -/
theorem chunksOf_ne_nil (c : Nat) : ∀ l : List α, ∀ s ∈ chunksOf c l, s ≠ []
  | [], s => by simp [chunksOf]
  | x :: xs, s => by
    match c with
    | 0 =>
      simp only [chunksOf, List.mem_singleton]
      rintro rfl
      simp
    | c + 1 =>
      rw [chunksOf]
      intro hs
      rcases List.mem_cons.mp hs with h | h
      · subst h; simp
      · exact chunksOf_ne_nil (c + 1) ((x :: xs).drop (c + 1)) s h
termination_by l => l.length
decreasing_by simp [List.length_drop]; omega

/-- A non-empty list has at least one chunk. -/
theorem chunksOf_ne_nil_of_ne_nil (c : Nat) (l : List α) (hl : l ≠ []) :
    chunksOf c l ≠ [] := by
  match l with
  | [] => exact absurd rfl hl
  | x :: xs => match c with
    | 0 => simp [chunksOf]
    | c + 1 => rw [chunksOf]; simp

/-- A list no longer than the (positive) chunk size yields a single chunk. -/
theorem chunksOf_of_length_le (c : Nat) (l : List α) (hl : l ≠ [])
    (hlen : l.length ≤ c + 1) : chunksOf (c + 1) l = [l] := by
  match l with
  | [] => exact absurd rfl hl
  | x :: xs =>
    rw [chunksOf, List.take_of_length_le hlen, List.drop_eq_nil_of_le hlen]
    rw [chunksOf]

/-- Phase 1 with an identity shuffle leaves the blocks unchanged. -/
theorem phase1_id (i : Nat) (bs : List (List α)) :
    phase1 (fun _ l => l) i bs = bs := by
  induction bs generalizing i with
  | nil => rfl
  | cons b bs ih => rw [phase1, ih]

/-- Phase 1 permutes each slot, so the concatenated slot contents are a
permutation of the concatenated blocks. -/
theorem phase1_flatten_perm (rng : Nat → List α → List α)
    (hrng : ∀ i l, (rng i l).Perm l) (i : Nat) (bs : List (List α)) :
    (phase1 rng i bs).flatten.Perm bs.flatten := by
  induction bs generalizing i with
  | nil => rfl
  | cons b bs ih =>
    rw [phase1, List.flatten_cons, List.flatten_cons]
    exact (hrng i b).append (ih (i + 1))

/-- Phase 1 preserves the number of slots. -/
theorem phase1_length (rng : Nat → List α → List α) (i : Nat) (bs : List (List α)) :
    (phase1 rng i bs).length = bs.length := by
  induction bs generalizing i with
  | nil => rfl
  | cons b bs ih => rw [phase1]; simp [ih]

/-- Phase 1 preserves the total number of resident samples. -/
theorem phase1_sumLen (rng : Nat → List α → List α)
    (hrng : ∀ i l, (rng i l).Perm l) (i : Nat) (bs : List (List α)) :
    sumLen (phase1 rng i bs) = sumLen bs := by
  induction bs generalizing i with
  | nil => rfl
  | cons b bs ih =>
    rw [phase1]
    simp only [sumLen, List.map_cons, List.sum_cons] at ih ⊢
    rw [(hrng i b).length_eq, ih]

/-- The total samples held by a collection equal the length of its
concatenation. -/
theorem sumLen_eq_length_flatten (st : List (List α)) :
    sumLen st = st.flatten.length := by
  induction st with
  | nil => rfl
  | cons s rest ih =>
    simp only [sumLen, List.map_cons, List.sum_cons, List.flatten_cons, List.length_append]
    simp only [sumLen] at ih
    omega

/-- One merge round conserves samples: the rows yielded this round plus the
rows still held by the surviving cursors are exactly the rows the collection
held, as multisets. -/
theorem roundChunks_multiset (c : Nat) (st : List (List α)) :
    (↑(roundChunks c st).1.flatten + ↑(roundChunks c st).2.flatten : Multiset α)
      = ↑st.flatten := by
  induction st with
  | nil => rfl
  | cons s rest ih =>
    match s with
    | [] =>
      rw [roundChunks]
      simpa using ih
    | x :: xs =>
      rw [roundChunks]
      simp only [List.flatten_cons, ← Multiset.coe_add]
      have htd : (↑((x :: xs).take c) + ↑((x :: xs).drop c) : Multiset α) = ↑(x :: xs) := by
        rw [Multiset.coe_add, List.take_append_drop]
      rw [← htd, ← ih]
      abel

/-- One merge round with a positive chunk size strictly shrinks the measure
`total samples + cursor count` by at least the number of cursors: every
cursor either loses at least one sample or is removed. -/
theorem roundChunks_measure (c : Nat) (hc : 1 ≤ c) (st : List (List α)) :
    sumLen (roundChunks c st).2 + (roundChunks c st).2.length + st.length
      ≤ sumLen st + st.length := by
  induction st with
  | nil => simp [roundChunks, sumLen]
  | cons s rest ih =>
    match s with
    | [] =>
      rw [roundChunks]
      simp only [sumLen, List.map_cons, List.sum_cons, List.length_cons,
        List.length_nil] at ih ⊢
      omega
    | x :: xs =>
      rw [roundChunks]
      simp only [sumLen, List.map_cons, List.sum_cons, List.length_cons,
        List.length_drop] at ih ⊢
      have hx : (x :: xs).length = xs.length + 1 := rfl
      omega

/-- The rows emitted by the Phase-2 loop are, as a multiset, exactly the rows
initially held by the cursor collection — provided the chunk size is positive
(so every round makes progress), the random generator only permutes, and the
fuel covers the loop's decreasing measure. -/
theorem phase2_flatten_multiset (c : Nat) (rng : Nat → List α → List α)
    (hrng : ∀ i l, (rng i l).Perm l) (hc : 1 ≤ c) :
    ∀ (fuel ctr : Nat) (st : List (List α)), sumLen st + st.length ≤ fuel →
      (↑(phase2 c rng fuel ctr st).flatten : Multiset α) = ↑st.flatten := by
  intro fuel
  induction fuel with
  | zero =>
    intro ctr st hst
    have : st = [] := by
      cases st with
      | nil => rfl
      | cons s rest => simp [sumLen] at hst
    subst this
    rfl
  | succ fuel ih =>
    intro ctr st hst
    match st with
    | [] => rfl
    | s :: rest =>
      have hmeas := roundChunks_measure c hc (s :: rest)
      have hmulti := roundChunks_multiset c (s :: rest)
      rw [phase2]
      match hys : (roundChunks c (s :: rest)).1 with
      | [] =>
        have h2 : (↑(roundChunks c (s :: rest)).2.flatten : Multiset α)
            = ↑(s :: rest).flatten := by
          rw [← hmulti, hys]
          simp
        rw [ih ctr _ (by simp only [List.length_cons] at hmeas hst ⊢; omega), h2]
      | y :: ys =>
        have hf : sumLen (roundChunks c (s :: rest)).2
            + (roundChunks c (s :: rest)).2.length ≤ fuel := by
          simp only [List.length_cons] at hmeas hst
          omega
        rw [List.flatten_cons, ← Multiset.coe_add,
          ih (ctr + 1) (roundChunks c (s :: rest)).2 hf,
          Multiset.coe_eq_coe.mpr (hrng ctr (y :: ys).flatten), ← hys, hmulti]

/-- With chunk size `0`, a round over a collection of non-exhausted cursors
removes no cursor and advances none: the collection is a fixed point of the
round step. -/
theorem roundChunks_zero_snd (st : List (List α)) (hne : ∀ s ∈ st, s ≠ []) :
    (roundChunks 0 st).2 = st := by
  induction st with
  | nil => rfl
  | cons s rest ih =>
    match s with
    | [] => exact absurd rfl (hne [] (List.mem_cons_self _ _))
    | x :: xs =>
      rw [roundChunks, List.drop_zero]
      rw [ih fun s hs => hne s (List.mem_cons_of_mem _ hs)]

/-- With chunk size `0`, the rows yielded in a round are nothing at all. -/
theorem roundChunks_zero_fst_flatten (st : List (List α)) :
    (roundChunks 0 st).1.flatten = [] := by
  induction st with
  | nil => rfl
  | cons s rest ih =>
    match s with
    | [] => rw [roundChunks]; exact ih
    | x :: xs => rw [roundChunks]; simpa using ih

/-- With chunk size `0` and only non-exhausted cursors, the Phase-2 loop
writes no sample at all, however long it runs. -/
theorem phase2_zero_flatten (rng : Nat → List α → List α)
    (hrng : ∀ i l, (rng i l).Perm l) (st : List (List α)) (hne : ∀ s ∈ st, s ≠ []) :
    ∀ fuel ctr, (phase2 0 rng fuel ctr st).flatten = [] := by
  intro fuel
  induction fuel generalizing st with
  | zero => intro ctr; rfl
  | succ fuel ih =>
    intro ctr
    match st, hne with
    | [], _ => rfl
    | [] :: rest, hne => exact absurd rfl (hne [] (List.mem_cons_self _ _))
    | (x :: xs) :: rest, hne =>
      rw [phase2]
      have hflat := roundChunks_zero_fst_flatten ((x :: xs) :: rest)
      have hsnd := roundChunks_zero_snd ((x :: xs) :: rest) hne
      match hys : (roundChunks 0 ((x :: xs) :: rest)).1 with
      | [] =>
        rw [hsnd]
        exact ih _ hne ctr
      | y :: ys =>
        rw [hys] at hflat
        rw [List.flatten_cons, hsnd, ih _ hne (ctr + 1), List.append_nil, hflat]
        exact List.Perm.eq_nil (hrng ctr [])

end Lemmas

section Claims

/-- C5: selecting `external_sort` at configuration time dispatches to the
`external_sort` variant — whose reference behaviour is a stub performing no
read or write of the dataset file — and never executes the
`external_shuffle` behaviour. -/
theorem shuffle_train_external_sort_stub (fuel : Nat) (dtype : String)
    (n num_features num_per_block : Nat) (rng : Nat → List α → List α) (file : List α) :
    shuffle_train fuel "external_sort" dtype n num_features num_per_block rng file
      = .ok (.sort { reads := [], writes := [] }) := rfl

/-- C6: for every algorithm name outside `{external_sort, external_shuffle}`
the dispatcher fails immediately with the invalid-algorithm error, carrying
no run (so before any file I/O); every recognized name dispatches to a run
without raising it. -/
theorem shuffle_train_invalid_algorithm (fuel : Nat) (algorithm dtype : String)
    (n num_features num_per_block : Nat) (rng : Nat → List α → List α) (file : List α) :
    (algorithm ∉ ALGORITHMS →
      shuffle_train fuel algorithm dtype n num_features num_per_block rng file
        = .error "Invalid shuffling algorithm provided.")
    ∧ (algorithm ∈ ALGORITHMS →
      ∃ r, shuffle_train fuel algorithm dtype n num_features num_per_block rng file
        = .ok r) := by
  constructor
  · intro h
    simp [shuffle_train, h]
  · intro h
    by_cases hs : algorithm = "external_sort"
    · subst hs
      exact ⟨.sort (external_sort dtype n num_per_block num_features), rfl⟩
    · refine ⟨.shuffle (external_shuffle fuel dtype n num_per_block num_features rng file), ?_⟩
      simp [shuffle_train, h, hs]

/-- C6 witness: an unrecognized name (`bogosort`) is rejected with the
invalid-algorithm error, and a recognized one (`external_shuffle`) is not. -/
theorem shuffle_train_invalid_algorithm_witness :
    shuffle_train (α := Nat) 1 "bogosort" "float64" 4 1 2 (fun _ l => l) []
      = .error "Invalid shuffling algorithm provided."
    ∧ ∃ r, shuffle_train (α := Nat) 1 "external_shuffle" "float64" 4 1 2 (fun _ l => l) []
      = .ok r :=
  ⟨(shuffle_train_invalid_algorithm 1 "bogosort" "float64" 4 1 2 (fun _ l => l) []).1
      (by decide),
   (shuffle_train_invalid_algorithm 1 "external_shuffle" "float64" 4 1 2 (fun _ l => l) []).2
      (by decide)⟩

/-- C7: the derived block size equals
`min(⌊buffer_megabytes * 10⁶ / ((d + 1) * w)⌋, n)`, and consequently the
block fits the memory budget (`samples_per_block * bytes_per_sample ≤
buffer_megabytes * 10⁶`) and never exceeds the sample count
(`samples_per_block ≤ n`). -/
theorem preprocess_num_per_block_spec (buffer d w n : Nat) :
    preprocess_num_per_block buffer d w n = min (buffer * 10 ^ 6 / ((d + 1) * w)) n
    ∧ preprocess_num_per_block buffer d w n * ((d + 1) * w) ≤ buffer * 10 ^ 6
    ∧ preprocess_num_per_block buffer d w n ≤ n := by
  refine ⟨rfl, ?_, min_le_right _ _⟩
  calc preprocess_num_per_block buffer d w n * ((d + 1) * w)
      ≤ buffer * 10 ^ 6 / ((d + 1) * w) * ((d + 1) * w) :=
        Nat.mul_le_mul_right _ (min_le_left _ _)
    _ ≤ buffer * 10 ^ 6 := Nat.div_mul_le_self _ _

/-- C10: for every configured element type, `external_shuffle` creates its
scratch scope with element type `float64` and tag `samplesort` — never with
the configured dtype — while the block reader and block writer both use the
configured dtype. -/
theorem external_shuffle_scope_float64 (fuel : Nat) (dtype : String)
    (n num_features num_per_block : Nat) (rng : Nat → List α → List α) (file : List α) :
    (external_shuffle fuel dtype n num_features num_per_block rng file).scopeDtype = "float64"
    ∧ (external_shuffle fuel dtype n num_features num_per_block rng file).scopeTag
        = "samplesort"
    ∧ (external_shuffle fuel dtype n num_features num_per_block rng file).readerDtype = dtype
    ∧ (external_shuffle fuel dtype n num_features num_per_block rng file).writerDtype = dtype :=
  ⟨rfl, rfl, rfl, rfl⟩

/-- C9: after a run wrapped in the scratch scope — whether the body completed
or failed at any injected fault point — no scratch slot remains reachable,
and the underlying failure, if any, still propagates to the caller. -/
theorem withBlockScope_cleanup (k : Nat) (failAt : Option Nat) :
    (withBlockScope (phase1Acquire k failAt)).liveSlots = []
    ∧ (∀ e, (phase1Acquire k failAt).2 = some e →
        (withBlockScope (phase1Acquire k failAt)).result = .error e) := by
  constructor
  · show (phase1Acquire k failAt).1.removeAll (phase1Acquire k failAt).1 = []
    rw [List.removeAll]
    rw [List.filter_eq_nil_iff]
    intro a ha
    simp [List.elem_eq_mem, ha]
  · intro e he
    show (match (phase1Acquire k failAt).2 with
      | some e => Except.error e
      | none => Except.ok ()) = Except.error e
    rw [he]

/-- C9 witness: a run of three block writes with a scratch-write failure
injected at the second leaves no live slot and reports the failure. -/
theorem withBlockScope_cleanup_witness :
    (withBlockScope (phase1Acquire 3 (some 1))).liveSlots = []
    ∧ (withBlockScope (phase1Acquire 3 (some 1))).result = .error "DatasetWriteError" :=
  ⟨(withBlockScope_cleanup 3 (some 1)).1,
   (withBlockScope_cleanup 3 (some 1)).2 "DatasetWriteError" (by decide)⟩

/-- C2 is false of the code: `shuffle_train` passes
`(dtype, n, num_per_block, num_features, path)` positionally into
`external_shuffle`, whose parameters are
`(dtype, n, num_features, num_per_block, path)`.  With `num_features = 2`
and `num_per_block = 4`, the block reader is configured with block size `2`
(the feature count), not the supplied `num_per_block = 4`. -/
theorem shuffle_train_swapped_arguments :
    shuffle_train (α := Nat) 20 "external_shuffle" "float64" 8 2 4
        (fun _ l => l) (List.range 8)
      = .ok (.shuffle (external_shuffle 20 "float64" 8 4 2 (fun _ l => l) (List.range 8)))
    ∧ (external_shuffle (α := Nat) 20 "float64" 8 4 2
        (fun _ l => l) (List.range 8)).readerBlockSize = 2
    ∧ (2 : Nat) ≠ 4 :=
  ⟨rfl, rfl, by decide⟩

/-- C1: when `n` is evenly divisible by `samples_per_block` and
`samples_per_block` is evenly divisible by `num_blocks = n / samples_per_block`,
the samples written by `external_shuffle` are a permutation of the samples of
the input file: no sample is created, duplicated, or lost. -/
theorem external_shuffle_permutation (fuel : Nat) (dtype : String)
    (n num_features num_per_block : Nat) (rng : Nat → List α → List α) (file : List α)
    (hn : 0 < n) (hB : 0 < num_per_block)
    (hdvd1 : num_per_block ∣ n) (hdvd2 : (n / num_per_block) ∣ num_per_block)
    (hrng : ∀ i l, (rng i l).Perm l) (hfile : file.length = n) (hfuel : 2 * n ≤ fuel) :
    ((external_shuffle fuel dtype n num_features num_per_block rng file).writes.flatten).Perm
      file := by
  have hq : 0 < n / num_per_block := Nat.div_pos (Nat.le_of_dvd hn hdvd1) hB
  have hqB : n / num_per_block * num_per_block = n := Nat.div_mul_cancel hdvd1
  have hcs : num_per_block * num_per_block / n = num_per_block / (n / num_per_block) := by
    conv_lhs => rw [← hqB, Nat.mul_comm (n / num_per_block) num_per_block,
      Nat.mul_div_mul_left _ _ hB]
  have hc : 1 ≤ num_per_block * num_per_block / n := by
    rw [hcs]
    exact Nat.div_pos (Nat.le_of_dvd hB hdvd2) hq
  obtain ⟨b, hb⟩ : ∃ b, num_per_block = b + 1 := ⟨num_per_block - 1, by omega⟩
  have hflat : (chunksOf num_per_block file).flatten = file := by
    rw [hb]; exact chunksOf_succ_flatten b file
  have hslots : sumLen (phase1 rng 0 (chunksOf num_per_block file))
      = file.length := by
    rw [phase1_sumLen rng hrng, sumLen_eq_length_flatten, hflat]
  have hlen : (phase1 rng 0 (chunksOf num_per_block file)).length ≤ file.length := by
    rw [phase1_length, hb]
    exact chunksOf_succ_length_le b file
  have hmain := phase2_flatten_multiset (num_per_block * num_per_block / n) rng hrng hc
    fuel (chunksOf num_per_block file).length (phase1 rng 0 (chunksOf num_per_block file))
    (by rw [hslots]; omega)
  simp only [external_shuffle]
  refine List.Perm.trans (Multiset.coe_eq_coe.mp hmain) ?_
  refine List.Perm.trans (phase1_flatten_perm rng hrng 0 (chunksOf num_per_block file)) ?_
  rw [hflat]

/-- C1 witness: a concrete divisible run (`n = 4`, `samples_per_block = 2`,
`num_blocks = 2`) whose output is a permutation of the input. -/
theorem external_shuffle_permutation_witness :
    (2 : Nat) ∣ 4 ∧ ((4 : Nat) / 2) ∣ 2
    ∧ ((external_shuffle (α := Nat) 8 "float64" 4 1 2 (fun _ l => l)
        (List.range 4)).writes.flatten).Perm (List.range 4) :=
  ⟨by decide, by decide,
   external_shuffle_permutation 8 "float64" 4 1 2 (fun _ l => l) (List.range 4)
     (by decide) (by decide) (by decide) (by decide) (fun _ l => List.Perm.refl l)
     (by decide) (by decide)⟩

/-- C3 (amended): the output has exactly the input's byte length for every
run whose cursor chunk size `⌊samples_per_block² / n⌋` is at least 1 — in
particular the sample counts are equal even when `n` is not evenly divisible
by `samples_per_block` — but not for every run outright: when the chunk size
is 0 the merge loop never terminates and never emits a sample.  Byte length
is sample count times the fixed per-sample width `(d + 1) * w`. -/
theorem external_shuffle_size_preserved (fuel : Nat) (dtype : String)
    (n num_features num_per_block w : Nat) (rng : Nat → List α → List α) (file : List α)
    (hB : 0 < num_per_block) (hc : 1 ≤ num_per_block * num_per_block / n)
    (hrng : ∀ i l, (rng i l).Perm l) (hfuel : 2 * file.length ≤ fuel) :
    ((external_shuffle fuel dtype n num_features num_per_block rng file).writes.flatten).length
      = file.length
    ∧ ((external_shuffle fuel dtype n num_features num_per_block rng
          file).writes.flatten).length * ((num_features + 1) * w)
      = file.length * ((num_features + 1) * w) := by
  obtain ⟨b, hb⟩ : ∃ b, num_per_block = b + 1 := ⟨num_per_block - 1, by omega⟩
  have hflat : (chunksOf num_per_block file).flatten = file := by
    rw [hb]; exact chunksOf_succ_flatten b file
  have hslots : sumLen (phase1 rng 0 (chunksOf num_per_block file)) = file.length := by
    rw [phase1_sumLen rng hrng, sumLen_eq_length_flatten, hflat]
  have hlen : (phase1 rng 0 (chunksOf num_per_block file)).length ≤ file.length := by
    rw [phase1_length, hb]
    exact chunksOf_succ_length_le b file
  have hmain := phase2_flatten_multiset (num_per_block * num_per_block / n) rng hrng hc
    fuel (chunksOf num_per_block file).length (phase1 rng 0 (chunksOf num_per_block file))
    (by rw [hslots]; omega)
  have hperm : ((external_shuffle fuel dtype n num_features num_per_block
      rng file).writes.flatten).Perm file := by
    simp only [external_shuffle]
    refine List.Perm.trans (Multiset.coe_eq_coe.mp hmain) ?_
    refine List.Perm.trans (phase1_flatten_perm rng hrng 0 (chunksOf num_per_block file)) ?_
    rw [hflat]
  exact ⟨hperm.length_eq, by rw [hperm.length_eq]⟩

/-- C3 witness: an uneven run (`n = 5`, `samples_per_block = 3`, chunk size
`⌊9/5⌋ = 1`) still emits exactly the 5 input samples (40 bytes at 8-byte
width, `d = 0`). -/
theorem external_shuffle_size_preserved_witness :
    ((external_shuffle (α := Nat) 10 "float64" 5 0 3 (fun _ l => l)
        (List.range 5)).writes.flatten).length = (List.range 5).length
    ∧ ((external_shuffle (α := Nat) 10 "float64" 5 0 3 (fun _ l => l)
        (List.range 5)).writes.flatten).length * ((0 + 1) * 8)
      = (List.range 5).length * ((0 + 1) * 8) :=
  external_shuffle_size_preserved 10 "float64" 5 0 3 8 (fun _ l => l) (List.range 5)
    (by decide) (by decide) (fun _ l => List.Perm.refl l) (by decide)

/-- C3 is not true of every run: with `n = 100` and `samples_per_block = 5`
the code's cursor chunk size is `⌊5² / 100⌋ = 0`, so the merge loop spins
without emitting a single sample — after 120 iterations (ample fuel for any
terminating run of 100 samples in 20 slots) the output holds 0 of the 100
input samples, and (see the non-termination counterexample) the loop never
finishes, so no run produces an output of the input's byte length. -/
theorem external_shuffle_size_counterexample :
    ((external_shuffle (α := Nat) 120 "float64" 100 3 5 (fun _ l => l)
        (List.range 100)).writes.flatten).length = 0
    ∧ (List.range 100).length = 100 ∧ (0 : Nat) ≠ 100 := by
  refine ⟨?_, by simp, by omega⟩
  have h0 : (5 : Nat) * 5 / 100 = 0 := by norm_num
  simp only [external_shuffle, h0, phase1_id]
  rw [phase2_zero_flatten (fun _ l => l) (fun _ l => List.Perm.refl l) _
    (chunksOf_ne_nil 5 (List.range 100))]
  rfl

/-- C4: when `n = samples_per_block` (one block, one cursor), Phase 1
produces a single slot, and the whole output of `external_shuffle` is a
single written block — one in-memory shuffle of the (already once-shuffled)
whole dataset — which is a permutation of all `n` samples. -/
theorem external_shuffle_single_block (fuel : Nat) (dtype : String)
    (n num_features : Nat) (rng : Nat → List α → List α) (file : List α)
    (hn : 0 < n) (hrng : ∀ i l, (rng i l).Perm l) (hfile : file.length = n)
    (hfuel : 3 ≤ fuel) :
    (chunksOf n file).length = 1
    ∧ (external_shuffle fuel dtype n num_features n rng file).writes = [rng 1 (rng 0 file)]
    ∧ (rng 1 (rng 0 file)).Perm file := by
  have hne : file ≠ [] := by
    intro h
    rw [h] at hfile
    simp at hfile
    omega
  obtain ⟨b, hb⟩ : ∃ b, n = b + 1 := ⟨n - 1, by omega⟩
  have hchunks : chunksOf n file = [file] := by
    rw [hb]
    exact chunksOf_of_length_le b file hne (by omega)
  refine ⟨by rw [hchunks]; rfl, ?_, (hrng 1 (rng 0 file)).trans (hrng 0 file)⟩
  have hcs : n * n / n = n := Nat.mul_div_cancel n hn
  obtain ⟨k, hk⟩ := Nat.exists_eq_add_of_le hfuel
  have hk3 : fuel = (k + 2) + 1 := by omega
  have hlen0 : (rng 0 file).length = n := by rw [(hrng 0 file).length_eq, hfile]
  simp only [external_shuffle, hcs, hchunks, hk3, phase1]
  match hs : rng 0 file with
  | [] =>
    rw [hs] at hlen0
    simp at hlen0
    omega
  | y :: ys =>
    rw [hs] at hlen0
    rw [phase2]
    rw [roundChunks, roundChunks]
    simp only [List.take_of_length_le (le_of_eq hlen0),
      List.drop_eq_nil_of_le (le_of_eq hlen0)]
    rw [phase2]
    rw [roundChunks, roundChunks]
    simp only [List.length_cons]
    rw [phase2]
    simp

/-- C4 witness: `n = samples_per_block = 3` gives one cursor, one written
block, equal to one shuffle of the whole (identity generator) dataset. -/
theorem external_shuffle_single_block_witness :
    (chunksOf 3 (List.range 3)).length = 1
    ∧ (external_shuffle (α := Nat) 3 "float64" 3 1 3 (fun _ l => l)
        (List.range 3)).writes = [List.range 3]
    ∧ (List.range 3).Perm (List.range 3) :=
  external_shuffle_single_block 3 "float64" 3 1 (fun _ l => l) (List.range 3)
    (by decide) (fun _ l => List.Perm.refl l) (by decide) (by decide)

/-- C8 (amended): Phase 2's merge loop terminates from every finite initial
cursor collection provided the cursor chunk size is at least 1 (as it is
whenever `samples_per_block` is divisible by `num_blocks`): each round every
active cursor strictly advances or is removed, so the collection empties
after finitely many rounds.  The proviso is necessary: with chunk size 0
(possible, e.g. `n = 100`, `samples_per_block = 5`) cursors yield empty
chunks without advancing and the loop never terminates. -/
theorem mergeStep_terminates (c : Nat) (hc : 1 ≤ c) (st : List (List α)) :
    ∃ k, Nat.iterate (mergeStep c) k st = [] := by
  have H : ∀ (m : Nat) (st : List (List α)), sumLen st + st.length ≤ m →
      ∃ k, Nat.iterate (mergeStep c) k st = [] := by
    intro m
    induction m with
    | zero =>
      intro st h
      cases st with
      | nil => exact ⟨0, rfl⟩
      | cons s rest => simp [sumLen] at h
    | succ m ih =>
      intro st h
      match st with
      | [] => exact ⟨0, rfl⟩
      | s :: rest =>
        have hmeas := roundChunks_measure c hc (s :: rest)
        obtain ⟨k, hk⟩ := ih (mergeStep c (s :: rest)) (by
          simp only [mergeStep]
          simp only [List.length_cons] at hmeas h ⊢
          omega)
        exact ⟨k + 1, by rw [Function.iterate_succ_apply, hk]⟩
  exact H (sumLen st + st.length) st le_rfl

/-- C8 witness: a two-cursor collection with chunk size 1 empties after
finitely many rounds. -/
theorem mergeStep_terminates_witness :
    ∃ k, Nat.iterate (mergeStep 1) k [[0], [1, 2]] = ([] : List (List Nat)) :=
  mergeStep_terminates 1 (by decide) [[0], [1, 2]]

/-- C8 is not true without a proviso: at `n = 100`, `samples_per_block = 5`,
the code's chunk size is `5 * 5 / 100 = 0` and the phase-1 cursor collection
(20 cursors of 5 samples) is a fixed point of the round step — no cursor
yields a non-empty chunk or is removed — so the merge loop never reaches the
empty collection. -/
theorem mergeStep_nontermination_counterexample :
    ¬ ∃ k, Nat.iterate (mergeStep (5 * 5 / 100)) k
        (phase1 (fun _ (l : List Nat) => l) 0 (chunksOf 5 (List.range 100))) = [] := by
  rintro ⟨k, hk⟩
  have h0 : (5 : Nat) * 5 / 100 = 0 := by norm_num
  rw [h0, phase1_id] at hk
  have hfix : mergeStep 0 (chunksOf 5 (List.range 100)) = chunksOf 5 (List.range 100) := by
    rw [mergeStep, roundChunks_zero_snd _ (chunksOf_ne_nil 5 (List.range 100))]
  rw [Function.iterate_fixed hfix k] at hk
  exact chunksOf_ne_nil_of_ne_nil 5 (List.range 100) (by simp [List.range_eq_nil]) hk

end Claims

end SSGD
